import Mathlib

set_option maxRecDepth 100000
set_option maxHeartbeats 2000000

/-!
Shallow embedding of the suggestion–matching–approval core of the
lunchmoney-auto-categorize application, together with theorems checking
its natural-language specification.

Modelling conventions: JavaScript strings are `String` (with `List Char`
data), JavaScript numbers are `ℚ` (all values arising here are exact
decimals, so no floating-point rounding is ever exercised by the
statements below), `null`/`undefined` are `Option`, code that can throw
returns `Except Unit`, and the orchestrator loop is explicit state
passing over a `RunState` record.  `JSON.parse` is an external runtime
facility and is passed in as an oracle `String → Option Json`
(`none` = the parse throws a `SyntaxError`).
-/

/-- Active Lunch Money category (the fields the core reads).  Mirrors the
`LMCategory` type of the source; absent optional fields are `none`/`false`. -/
structure LMCategory where
  id : Nat
  name : String
  description : Option String
  archived : Bool
  is_group : Bool
  deriving DecidableEq, Repr

/-- Transaction fields used by the orchestrator loop. -/
structure LMTransaction where
  id : Nat
  date : String
  payee : Option String
  amount : ℚ
  category_id : Option Nat
  deriving DecidableEq, Repr

/-- Suggestion record produced by the response parsing in
`chooseCategoryOptions`: `name` is always a string, `justification` is a
string or absent, `confidence` is a number or `null`. -/
structure CategorySuggestion where
  name : String
  justification : Option String
  confidence : Option ℚ
  deriving DecidableEq, Repr

/-- JavaScript `Array.prototype.join(sep)` on a list of strings. -/
def joinWith (sep : String) : List String → String
  | [] => ""
  | [x] => x
  | x :: y :: xs => x ++ sep ++ joinWith sep (y :: xs)

/-- Executable contiguous-substring test: `hasSubstring pat l` is true iff
`pat` occurs contiguously in `l` (JavaScript `l.includes(pat)`). -/
def hasSubstring (pat : List Char) : List Char → Bool
  | [] => pat.isEmpty
  | c :: t => pat.isPrefixOf (c :: t) || hasSubstring pat t

/-- JavaScript `s.includes(sub)`. -/
def jsIncludes (s sub : String) : Bool := hasSubstring sub.data s.data

/-- JavaScript `s.toLowerCase()` (character-wise lowering; coincides with
the source's use on ASCII category names). -/
def jsToLower (s : String) : String := String.mk (s.data.map Char.toLower)

/-- JavaScript `s.trim()`: strip leading and trailing whitespace. -/
def jsTrim (s : String) : String :=
  String.mk (((s.data.dropWhile Char.isWhitespace).reverse.dropWhile Char.isWhitespace).reverse)

/-- Number of start positions at which `pat` occurs in `l`; used to state
the "name appears verbatim exactly once" property of the spec. -/
def countOccurrences (pat : List Char) : List Char → Nat
  | [] => if pat.isEmpty then 1 else 0
  | c :: t => (if pat.isPrefixOf (c :: t) then 1 else 0) + countOccurrences pat t

/-- The `getCategories` filter: the working category set for a run is the
active subset, `(data.categories || []).filter(c => !c.is_group && !c.archived)`. -/
def getCategoriesFilter (cs : List LMCategory) : List LMCategory :=
  cs.filter (fun c => !c.is_group && !c.archived)

/-- One enumeration line of the system prompt:
`"${c.name}" (ID: ${c.id})`, extended with ` - ${description.trim()}` when
the description is present and nonblank (source lines 451–457). -/
def categoryInfo (c : LMCategory) : String :=
  let base := "\"" ++ c.name ++ "\" (ID: " ++ toString c.id ++ ")"
  match c.description with
  | some d => if (jsTrim d) != "" then base ++ " - " ++ (jsTrim d) else base
  | none => base

/-- The array literal of `buildSystemPrompt` (source lines 459–488), with
the categories block spliced in as one element; the source then drops the
falsy (empty) entries with `.filter(Boolean)` and joins with `"\n"`. -/
def systemPromptLines (catBlock : String) : List String :=
  [ "You categorize personal finance transactions.",
    "",
    "CRITICAL REQUIREMENTS:",
    "- You MUST ONLY choose category names from the EXACT list provided below",
    "- Category names must match EXACTLY - character for character, including punctuation and spacing",
    "- DO NOT create new categories, split compound categories, or use variations",
    "- DO NOT use similar-sounding names that aren\x27t in the list",
    "- If unsure, pick the closest match from the provided list",
    "",
    "EXAMPLE: If the list contains \x27Gas, Transportation\x27, you must use \x27Gas, Transportation\x27 exactly - NEVER \x27Gas\x27 or \x27Transportation\x27 separately.",
    "",
    "Return ONLY valid JSON with this exact structure:",
    "\x7b \"suggestions\": [",
    "  \x7b \"name\": \"<EXACT category name from the list below>\", \"justification\": \"<short reason>\", \"confidence\": 0.85 \x7d",
    "] \x7d",
    "",
    "REQUIREMENTS:",
    "- Include 3 suggestions, sorted by confidence (highest first)",
    "- Category names must be EXACT matches from the list below",
    "- Confidence should be 0.0-1.0 (not percentages)",
    "- Keep justifications to one sentence",
    "",
    "AVAILABLE CATEGORIES (you must choose from this exact list):",
    "Note: Some categories include descriptions to help you understand their purpose.",
    "",
    catBlock,
    "",
    "Remember: Use the EXACT category name as shown above. Do not modify, abbreviate, or create variations." ]

/-- `buildSystemPrompt` (source lines 450–491): enumerate the categories,
splice the block into the fixed text, drop empty entries, join with
newlines. -/
def buildSystemPrompt (categories : List LMCategory) : String :=
  let categoriesWithIds := categories.map categoryInfo
  joinWith "\n" ((systemPromptLines (joinWith "\n" categoriesWithIds)).filter (fun s => s != ""))

/-- The nonempty fixed lines preceding the category block, as they survive
the `.filter(Boolean)`; used to state the amended enumeration property. -/
def promptHeadLines : List String :=
  (systemPromptLines "").take 25 |>.filter (fun s => s != "")

/-- The fixed closing line of the system prompt. -/
def promptFooterLine : String :=
  "Remember: Use the EXACT category name as shown above. Do not modify, abbreviate, or create variations."

/-- `matchCategoryId` (source lines 631–651): tier 1 exact case-sensitive
equality, tier 2 case-insensitive equality, tier 3 lowercased substring
containment in either direction; each tier takes the first category in
iteration order, and `none` is returned when all tiers miss. -/
def matchCategoryId (name : String) (categories : List LMCategory) : Option Nat :=
  match categories.find? (fun c => c.name == name) with
  | some found => some found.id
  | none =>
    match categories.find? (fun c => (jsToLower c.name) == (jsToLower name)) with
    | some found => some found.id
    | none =>
      let lo := (jsToLower name)
      match categories.find? (fun c => jsIncludes (jsToLower c.name) lo || jsIncludes lo (jsToLower c.name)) with
      | some found => some found.id
      | none => none

/-- The `console.warn` inside `matchCategoryId` fires exactly when tiers
1–2 miss and the tier-3 substring heuristic hits: the fuzzy-resolution
flag of the spec. -/
def matchWarnsFuzzy (name : String) (categories : List LMCategory) : Bool :=
  (categories.find? (fun c => c.name == name)).isNone &&
  ((categories.find? (fun c => (jsToLower c.name) == (jsToLower name))).isNone &&
   (categories.find? (fun c =>
      jsIncludes (jsToLower c.name) (jsToLower name) || jsIncludes (jsToLower name) (jsToLower c.name))).isSome)

/-- First element of a list satisfying a predicate; spec-side formulation
of "the first category satisfying this in iteration order". -/
def firstMatch {α : Type} (p : α → Bool) : List α → Option α
  | [] => none
  | x :: rest => if p x then some x else firstMatch p rest

/-- Three-tier matcher written from the words of the spec: (1) exact
case-sensitive equality; (2) exact case-insensitive equality; (3) the
lowercased name is a substring of the lowercased query or vice versa;
each tier short-circuits on its first hit in iteration order. -/
def matchSpec (name : String) (categories : List LMCategory) : Option Nat :=
  match firstMatch (fun c => decide (c.name = name)) categories with
  | some c => some c.id
  | none =>
    match firstMatch (fun c => decide ((jsToLower c.name) = (jsToLower name))) categories with
    | some c => some c.id
    | none =>
      match firstMatch (fun c =>
          decide ((jsToLower c.name).data <:+: (jsToLower name).data ∨
                  (jsToLower name).data <:+: (jsToLower c.name).data)) categories with
      | some c => some c.id
      | none => none

/-- `validateCategorySuggestions` (source lines 653–666): keep exactly the
suggestions whose name is literally contained in the canonical name set. -/
def validateCategorySuggestions (suggestions : List CategorySuggestion)
    (categories : List LMCategory) : List CategorySuggestion :=
  let validCategoryNames := categories.map (fun c => c.name)
  suggestions.filter (fun s => validCategoryNames.contains s.name)

/-- The manual-fallback preselection of `promptUserForCategory`
(source line 1034): `suggestions?.[0]?.name ? matchCategoryId(...) : null`;
an empty first name is falsy and yields `null`. -/
def preselectionId (suggestions : List CategorySuggestion)
    (categories : List LMCategory) : Option Nat :=
  match suggestions with
  | [] => none
  | s :: _ => if s.name != "" then matchCategoryId s.name categories else none

/-- Confidence bucket labels used for the badge (`high`/`med`/`low`). -/
inductive ConfLevel where
  | high
  | med
  | low
  deriving DecidableEq, Repr

/-- JavaScript `Math.round`: round half toward positive infinity. -/
def jsRound (q : ℚ) : ℤ := ⌊q + 1 / 2⌋

/-- Confidence badge rendering of `promptUserForCategory` (source lines
994–1005): a numeric raw value is divided by 100 when it exceeds 1;
a negative normalized value renders no badge; otherwise the value is
clamped to `[0,1]`, scaled to a rounded integer percentage, and bucketed
by that percentage (`≥80` high, `≥50` med, else low).  The input `none`
models a `null`/absent/non-numeric confidence. -/
def confBadge (confidence : Option ℚ) : Option (ℤ × ConfLevel) :=
  match confidence with
  | none => none
  | some rawConf =>
    let norm : ℚ := if rawConf > 1 then rawConf / 100 else rawConf
    if norm ≥ 0 then
      let pct : ℤ := jsRound (max 0 (min 1 norm) * 100)
      some (pct, if pct ≥ 80 then ConfLevel.high else if pct ≥ 50 then ConfLevel.med else ConfLevel.low)
    else none

/-- Confidence display written from the words of claim C6: divide by 100
when the raw value exceeds 1, treat negative values as absent, clamp to
`[0,1]`, and bucket the normalized value as high when `≥ 0.80`, medium
when `≥ 0.50`, low otherwise. -/
def confBucketClaim (confidence : Option ℚ) : Option (ℚ × ConfLevel) :=
  match confidence with
  | none => none
  | some raw =>
    let norm : ℚ := if raw > 1 then raw / 100 else raw
    if norm < 0 then none
    else
      let clamped : ℚ := max 0 (min 1 norm)
      some (clamped,
        if clamped ≥ 4 / 5 then ConfLevel.high
        else if clamped ≥ 1 / 2 then ConfLevel.med else ConfLevel.low)

/-- Confidence display written from the amended claim: as claim C6, but
the bucket is decided by the rounded integer percentage of the clamped
value (`Math.round` first, then `≥80` high / `≥50` medium / else low). -/
def confBadgeAmended (confidence : Option ℚ) : Option (ℤ × ConfLevel) :=
  match confidence with
  | none => none
  | some raw =>
    let norm : ℚ := if raw > 1 then raw / 100 else raw
    if norm < 0 then none
    else
      let pct : ℤ := jsRound (max 0 (min 1 norm) * 100)
      some (pct,
        if 80 ≤ pct then ConfLevel.high
        else if 50 ≤ pct then ConfLevel.med else ConfLevel.low)

/-- JSON values as produced by `JSON.parse` (numbers as exact rationals;
object fields in document order). -/
inductive Json where
  | null
  | bool (b : Bool)
  | num (q : ℚ)
  | str (s : String)
  | arr (elems : List Json)
  | obj (fields : List (String × Json))
  deriving Repr

/-- JavaScript property access `v?.k` on a parsed JSON value: a field of
an object, `none` (undefined) otherwise. -/
def Json.getField : Json → String → Option Json
  | .obj fields, k => (fields.find? (fun f => f.1 == k)).map (fun f => f.2)
  | _, _ => none

/-- Decimal-style rendering of a rational used by `jsToString` on the
`num` constructor; exact for integers (the only numbers any claim feeds
through a string coercion). -/
def jsNumRepr (q : ℚ) : String :=
  if q.den = 1 then toString q.num else toString q

mutual

/-- JavaScript `String(v)` on a parsed JSON value. -/
def jsToString : Json → String
  | .null => "null"
  | .bool true => "true"
  | .bool false => "false"
  | .num q => jsNumRepr q
  | .str s => s
  | .arr elems => joinWith "," (jsArrParts elems)
  | .obj _ => "[object Object]"

/-- Element strings of `Array.prototype.toString`: `null` renders empty. -/
def jsArrParts : List Json → List String
  | [] => []
  | .null :: rest => "" :: jsArrParts rest
  | v :: rest => jsToString v :: jsArrParts rest

end

/-- JavaScript truthiness of a parsed JSON value. -/
def jsTruthy : Json → Bool
  | .null => false
  | .bool b => b
  | .num q => decide (q ≠ 0)
  | .str s => s != ""
  | .arr _ => true
  | .obj _ => true

/-- Per-entry coercion of `chooseCategoryOptions` (source lines 621–624):
`name` is `String(s?.name ?? "").trim()`, `justification` is kept trimmed
only when truthy, `confidence` is kept only when it is a number. -/
def coerceSuggestion (s : Json) : CategorySuggestion :=
  { name :=
      jsTrim (match s.getField "name" with
       | none => ""
       | some Json.null => ""
       | some v => jsToString v)
    justification :=
      match s.getField "justification" with
      | some v => if jsTruthy v then some (jsTrim (jsToString v)) else none
      | none => none
    confidence :=
      match s.getField "confidence" with
      | some (Json.num q) => some q
      | _ => none }

/-- Post-processing of a successfully parsed model response (source lines
617–627): read `suggestions` (absent/non-array gives `[]`), coerce each
entry, drop entries whose trimmed name is empty, keep the first 3. -/
def postProcessSuggestions (parsed : Json) : List CategorySuggestion :=
  let arr : List Json :=
    match parsed.getField "suggestions" with
    | some (Json.arr elems) => elems
    | _ => []
  (((arr.map coerceSuggestion).filter (fun s => decide (s.name.length > 0))).take 3)

/-- Truncation to the first three entries, written recursively from the
words of the spec ("truncate to the first 3 entries"). -/
def firstThree {α : Type} : List α → List α
  | [] => []
  | [a] => [a]
  | [a, b] => [a, b]
  | a :: b :: c :: _ => [a, b, c]

/-- Dropping of entries with empty name, written recursively from the
words of the spec ("entries with empty name are dropped"). -/
def dropEmptyNames : List CategorySuggestion → List CategorySuggestion
  | [] => []
  | s :: rest => if s.name = "" then dropEmptyNames rest else s :: dropEmptyNames rest

/-- Post-processing written from the words of the spec: read the
`suggestions` field (must be a sequence; absent/non-sequence gives the
empty list), coerce each entry, drop empty names, truncate to the first
three. -/
def postProcessSpec (parsed : Json) : List CategorySuggestion :=
  match parsed.getField "suggestions" with
  | some (Json.arr elems) => firstThree (dropEmptyNames (elems.map coerceSuggestion))
  | _ => []

/-- Index of the first occurrence of `pat` in `l` (JS `indexOf` on a
string pattern), or `none` when absent. -/
def firstOccIdx (pat : List Char) : List Char → Option Nat
  | [] => if pat.isEmpty then some 0 else none
  | c :: t => if pat.isPrefixOf (c :: t) then some 0 else (firstOccIdx pat t).map (· + 1)

/-- Index of the last occurrence of the character `c` in `l`
(JS `lastIndexOf` on a single-character pattern), or `none` when absent. -/
def lastCharIdx (c : Char) (l : List Char) : Option Nat :=
  (l.reverse.findIdx? (fun x => x == c)).map (fun k => l.length - 1 - k)

/-- Interior of the first fenced code block of the source regex
(triple backticks, optionally tagged `json` case-insensitively); `none`
when the regex does not match.  The regex's surrounding whitespace
handling is subsumed by the `.trim()` the source applies to the capture. -/
def fenceInner (raw : String) : Option String :=
  match firstOccIdx "```".data raw.data with
  | none => none
  | some i =>
    let rest := raw.data.drop (i + 3)
    let rest2 := if (rest.take 4).map Char.toLower = "json".data then rest.drop 4 else rest
    match firstOccIdx "```".data rest2 with
    | none => none
    | some j => some (String.mk (rest2.take j))

/-- Response-parsing pipeline of `chooseCategoryOptions` (source lines
597–627), from the assembled text content onward.  `parse` is the
`JSON.parse` oracle (`none` = throws).  The first parse attempt is inside
a `try`; the brace-substring retry is **not**, so its failure is an
uncaught exception, modelled as `Except.error ()`. -/
def chooseCategoryOptionsParse (parse : String → Option Json) (content : String) :
    Except Unit (List CategorySuggestion) :=
  let raw := jsTrim content
  if raw = "" then Except.ok []
  else
    let jsonText := jsTrim (match fenceInner raw with
      | some s => s
      | none => raw)
    match parse jsonText with
    | some parsed => Except.ok (postProcessSuggestions parsed)
    | none =>
      match firstOccIdx ['\x7b'] jsonText.data, lastCharIdx '\x7d' jsonText.data with
      | some s, some e =>
        if s < e then
          match parse (String.mk ((jsonText.data.take (e + 1)).drop s)) with
          | some parsed => Except.ok (postProcessSuggestions parsed)
          | none => Except.error ()
        else Except.ok []
      | some _, none => Except.ok []
      | none, _ => Except.ok []

/-- Decision with which the approval modal's promise resolves
(source lines 1048–1093): the save action with a selection present, the
save action with no selection or the skip action (both resolve `null`),
or the cancel action / Escape key, which sets the shared cancellation
flag and resolves `null`. -/
inductive GateDecision where
  | save (id : Nat)
  | skipOrEmptySave
  | cancelModal
  deriving DecidableEq, Repr

/-- External events of one loop iteration: whether the global cancel
button was pressed before this iteration's top-of-loop check, whether it
was pressed while the provider call was in flight, how the approval gate
resolves, and whether the ledger commit call succeeds. -/
structure TxEvents where
  cancelBefore : Bool
  cancelDuringProvider : Bool
  decision : GateDecision
  commitOk : Bool
  deriving DecidableEq, Repr

/-- Observable loop state of `run` (source lines 1216–1268): the shared
cancellation flag, the `done` counter, the successive `setBar` arguments
as `(done, total)` pairs, the ids of transactions presented in the
approval modal, and the `(transaction, category)` pairs successfully
committed to the ledger. -/
structure RunState where
  cancelled : Bool
  done : Nat
  bar : List (Nat × Nat)
  presented : List Nat
  committed : List (Nat × Nat)
  deriving DecidableEq, Repr

/-- Effect of the per-item `finally` block (source lines 1264–1267), also
reused for the explicit increment in the skip branch (lines 1249–1250):
increment `done` and push a progress update. -/
def barStep (total : Nat) (st : RunState) : RunState :=
  { st with done := st.done + 1, bar := st.bar ++ [(st.done + 1, total)] }

/-- One iteration of the orchestrator loop (source lines 1217–1267).
Returns the state after the iteration and whether the loop continues.
Control faithfully follows the source: the top-of-loop flag check breaks
without touching the counter; every exit from inside the `try` (the inner
flag checks via `break`, the skip branch via `continue`, the commit path,
and the caught commit error) runs the `finally` increment; the skip
branch additionally increments explicitly before its `continue`.  A save
of the falsy id `0` takes the `!chosenId` skip branch.  A cancellation
thrown by the provider checkpoints is caught by
`promptUserForCategoryWithLoading`, which still presents the error modal
and awaits the decision; the post-gate flag check then breaks before any
commit. -/
def processTx (total : Nat) (t : LMTransaction) (ev : TxEvents) (st : RunState) :
    RunState × Bool :=
  let st := if ev.cancelBefore then { st with cancelled := true } else st
  if st.cancelled then (st, false)
  else
    -- inner flag check (source line 1227): the flag cannot have been set
    -- since the top-of-loop check, but the source checks again
    if st.cancelled then (barStep total st, false)
    else
      -- promptUserForCategoryWithLoading: render the transaction and open
      -- the modal (presentation), then run the provider with its two
      -- checkpoints around the model call
      let st := { st with presented := st.presented ++ [t.id] }
      let st := if ev.cancelDuringProvider then { st with cancelled := true } else st
      -- the gate resolves with the user's decision (also on the
      -- error-modal path taken when the provider threw `Cancelled`)
      let stDecided :=
        match ev.decision with
        | GateDecision.cancelModal => { st with cancelled := true }
        | _ => st
      let chosenId : Option Nat :=
        match ev.decision with
        | GateDecision.save id => some id
        | _ => none
      -- post-gate flag check (source line 1241): break before any commit
      if stDecided.cancelled then (barStep total stDecided, false)
      else
        match chosenId with
        | none => (barStep total (barStep total stDecided), true)
        | some id =>
          if id = 0 then (barStep total (barStep total stDecided), true)
          else
            let stCommitted :=
              if ev.commitOk then
                { stDecided with committed := stDecided.committed ++ [(t.id, id)] }
              else stDecided
            (barStep total stCommitted, true)

/-- The orchestrator loop over the fetched transactions, consuming one
`TxEvents` record per iteration. -/
def runLoopAux (total : Nat) : List LMTransaction → List TxEvents → RunState → RunState
  | [], _, st => st
  | _ :: _, [], st => st
  | t :: ts, ev :: evs, st =>
    let step := processTx total t ev st
    if step.2 then runLoopAux total ts evs step.1 else step.1

/-- The `run` orchestrator from the start of the per-transaction loop
(source line 1216: `let done = 0`, cancellation flag freshly reset). -/
def runLoop (txs : List LMTransaction) (evs : List TxEvents) : RunState :=
  runLoopAux txs.length txs evs { cancelled := false, done := 0, bar := [], presented := [], committed := [] }

/-- An iteration whose events involve no cancellation of any kind. -/
def NoCancelEv (ev : TxEvents) : Prop :=
  ev.cancelBefore = false ∧ ev.cancelDuringProvider = false ∧
  ev.decision ≠ GateDecision.cancelModal

instance : DecidablePred NoCancelEv := fun ev => by
  unfold NoCancelEv; infer_instance

/-- The commit recorded for one non-cancelling iteration: a successful
ledger update of a saved non-falsy category id. -/
def commitOf (t : LMTransaction) (ev : TxEvents) : List (Nat × Nat) :=
  match ev.decision, ev.commitOk with
  | GateDecision.save c, true => if c = 0 then [] else [(t.id, c)]
  | _, _ => []

/-- The commits performed by the first `n` iterations. -/
def expectedCommits : List LMTransaction → List TxEvents → Nat → List (Nat × Nat)
  | _, _, 0 => []
  | [], _, _ + 1 => []
  | _ :: _, [], _ + 1 => []
  | t :: ts, ev :: evs, n + 1 => commitOf t ev ++ expectedCommits ts evs n

theorem hasSubstring_iff (pat l : List Char) : hasSubstring pat l = true ↔ pat <:+: l := by
  induction l with
  | nil => simp [hasSubstring, List.isEmpty_iff, List.infix_nil]
  | cons c t ih =>
    simp [hasSubstring, List.infix_cons_iff, List.isPrefixOf_iff_prefix, ih]

theorem jsIncludes_eq_decide (s sub : String) :
    jsIncludes s sub = decide (sub.data <:+: s.data) := by
  rw [Bool.eq_iff_iff, decide_eq_true_iff]
  exact hasSubstring_iff _ _

theorem find?_eq_firstMatch {α : Type} (p : α → Bool) (l : List α) :
    l.find? p = firstMatch p l := by
  induction l with
  | nil => rfl
  | cons x rest ih =>
    simp only [List.find?_cons, firstMatch, ih]
    cases h : p x <;> simp [h]

/-- C4: `matchCategoryId` resolves in three short-circuiting tiers —
first case-sensitive equality, then case-insensitive equality, then the
lowercased-substring heuristic in either direction, each taking the first
category in iteration order, with `none` when every tier misses; the
query "Gas" against only "Gas, Transportation" resolves to that
category's id through tier 3 and raises the fuzzy-resolution warning,
while "Zzz" resolves to none. -/
theorem matchCategoryId_threeTiers :
    (∀ (name : String) (categories : List LMCategory),
        matchCategoryId name categories = matchSpec name categories) ∧
    matchCategoryId "Gas" [⟨2, "Gas, Transportation", none, false, false⟩] = some 2 ∧
    matchWarnsFuzzy "Gas" [⟨2, "Gas, Transportation", none, false, false⟩] = true ∧
    matchCategoryId "Zzz" [⟨2, "Gas, Transportation", none, false, false⟩] = none := by
  refine ⟨?_, by decide, by decide, by decide⟩
  intro name categories
  have h1 : (fun (c : LMCategory) => c.name == name)
      = (fun c => decide (c.name = name)) := by
    funext c; by_cases h : c.name = name <;> simp [h]
  have h2 : (fun (c : LMCategory) => (jsToLower c.name) == (jsToLower name))
      = (fun c => decide ((jsToLower c.name) = (jsToLower name))) := by
    funext c; by_cases h : (jsToLower c.name) = (jsToLower name) <;> simp [h]
  have h3 : (fun (c : LMCategory) =>
        jsIncludes (jsToLower c.name) (jsToLower name) || jsIncludes (jsToLower name) (jsToLower c.name))
      = (fun c => decide ((jsToLower c.name).data <:+: (jsToLower name).data ∨
                          (jsToLower name).data <:+: (jsToLower c.name).data)) := by
    funext c
    rw [jsIncludes_eq_decide, jsIncludes_eq_decide, Bool.eq_iff_iff]
    simp [or_comm]
  simp only [matchCategoryId, matchSpec, h1, h2, h3, find?_eq_firstMatch]

/-- C5: `validateCategorySuggestions` keeps exactly the suggestions whose
name is a literal case-sensitive equal of some canonical category name;
in particular "Gas" is dropped when the canonical list contains only
"Gas, Transportation", even though `matchCategoryId` fuzzy-resolves it. -/
theorem validateCategorySuggestions_exactOnly :
    (∀ (sugg : List CategorySuggestion) (categories : List LMCategory),
        validateCategorySuggestions sugg categories
          = sugg.filter (fun s => decide (∃ c ∈ categories, c.name = s.name))) ∧
    validateCategorySuggestions [⟨"Gas", none, none⟩]
        [⟨2, "Gas, Transportation", none, false, false⟩] = [] ∧
    matchCategoryId "Gas" [⟨2, "Gas, Transportation", none, false, false⟩] = some 2 := by
  refine ⟨?_, by decide, by decide⟩
  intro sugg categories
  unfold validateCategorySuggestions
  apply List.filter_congr
  intro s _
  rw [Bool.eq_iff_iff, decide_eq_true_iff]
  rw [List.elem_iff]
  simp [List.mem_map]

/-- C10: the validator returns a sublist of its input — each kept
suggestion unchanged, relative order preserved, nothing duplicated — and
applying it twice with the same category list equals applying it once. -/
theorem validateCategorySuggestions_sublist_idempotent :
    (∀ (sugg : List CategorySuggestion) (categories : List LMCategory),
        (validateCategorySuggestions sugg categories).Sublist sugg) ∧
    (∀ (sugg : List CategorySuggestion) (categories : List LMCategory),
        validateCategorySuggestions (validateCategorySuggestions sugg categories) categories
          = validateCategorySuggestions sugg categories) := by
  constructor
  · intro sugg categories
    exact List.filter_sublist sugg
  · intro sugg categories
    unfold validateCategorySuggestions
    simp [List.filter_filter]

/-- C6 counterexample: at raw confidence 0.799 the code renders the high
bucket (the rounded percentage 80 is compared against 80), while the
claim as stated buckets the normalized value 0.799 < 0.80 as medium. -/
theorem confBadge_bucket_boundary_mismatch :
    confBadge (some (799 / 1000)) = some (80, ConfLevel.high) ∧
    confBucketClaim (some (799 / 1000)) = some (799 / 1000, ConfLevel.med) := by
  constructor <;> norm_num [confBadge, confBucketClaim, jsRound]

/-- C6 (amended): the display normalization divides by 100 when the raw
value exceeds 1, treats a negative normalized value as absent, clamps to
`[0,1]`, and buckets the **rounded integer percentage** of the clamped
value — high when it reaches 80 (equivalently, normalized value at least
0.795), medium when it reaches 50, low otherwise; raw 85 normalizes to
0.85 and buckets high, raw 0.45 buckets low, and raw −1 renders no
badge. -/
theorem confBadge_normalization :
    (∀ conf : Option ℚ, confBadge conf = confBadgeAmended conf) ∧
    confBadge (some 85) = some (85, ConfLevel.high) ∧
    confBadge (some (45 / 100)) = some (45, ConfLevel.low) ∧
    confBadge (some (-1)) = none ∧
    (∀ q : ℚ, 0 ≤ q → q ≤ 1 →
        (((confBadge (some q)).map Prod.snd = some ConfLevel.high) ↔ 159 / 200 ≤ q)) := by
  refine ⟨?_, by norm_num [confBadge, jsRound], by norm_num [confBadge, jsRound],
    by norm_num [confBadge, jsRound], ?_⟩
  · intro conf
    cases conf with
    | none => rfl
    | some raw =>
      simp only [confBadge, confBadgeAmended]
      by_cases h : (if raw > 1 then raw / 100 else raw) ≥ 0
      · rw [if_pos h, if_neg (not_lt.mpr h)]
      · rw [if_neg h, if_pos (lt_of_not_ge h)]
  · intro q h0 h1
    have hng : ¬ (q > 1) := not_lt.mpr h1
    have hcl : max 0 (min 1 q) = q := by
      rw [min_eq_right h1, max_eq_right h0]
    simp only [confBadge, if_neg hng, if_pos (show q ≥ 0 from h0), hcl]
    have key : (80 ≤ jsRound (q * 100)) ↔ 159 / 200 ≤ q := by
      unfold jsRound
      rw [Int.le_floor]
      push_cast
      constructor <;> intro h <;> linarith
    by_cases hp : 80 ≤ jsRound (q * 100)
    · simp [ge_iff_le, hp, key.mp hp]
    · have hq : ¬ 159 / 200 ≤ q := fun hh => hp (key.mpr hh)
      by_cases hm : 50 ≤ jsRound (q * 100) <;>
        simp [ge_iff_le, hp, hm, hq]

theorem mem_validate_exact {sugg : List CategorySuggestion}
    {categories : List LMCategory} {s : CategorySuggestion}
    (hs : s ∈ validateCategorySuggestions sugg categories) :
    ∃ c ∈ categories, c.name = s.name := by
  unfold validateCategorySuggestions at hs
  have := (List.mem_filter.mp hs).2
  rw [List.elem_iff] at this
  simpa [List.mem_map] using this

/-- C9 (amended): for every category list with unique names, each
suggestion retained by `validateCategorySuggestions` resolves through
`matchCategoryId` at tier 1 (exact case-sensitive equality) to a non-null
id and never triggers the fuzzy tier; and whenever the validated list is
non-empty **and its first element's name is non-empty**, the
manual-fallback preselection id derived from it is non-null (the source
treats an empty first name as falsy and skips preselection). -/
theorem validatedSuggestions_resolveTier1 (categories : List LMCategory)
    (sugg : List CategorySuggestion)
    (_hnodup : (categories.map (fun c => c.name)).Nodup) :
    (∀ s ∈ validateCategorySuggestions sugg categories,
        (categories.find? (fun c => c.name == s.name)).isSome ∧
        matchCategoryId s.name categories
          = (categories.find? (fun c => c.name == s.name)).map (fun c => c.id) ∧
        matchWarnsFuzzy s.name categories = false) ∧
    (∀ s rest, validateCategorySuggestions sugg categories = s :: rest →
        s.name ≠ "" →
        (preselectionId (validateCategorySuggestions sugg categories) categories).isSome) := by
  have tier1 : ∀ s ∈ validateCategorySuggestions sugg categories,
      (categories.find? (fun c => c.name == s.name)).isSome := by
    intro s hs
    obtain ⟨c, hc, hn⟩ := mem_validate_exact hs
    exact List.find?_isSome.mpr ⟨c, hc, by simp [hn]⟩
  constructor
  · intro s hs
    refine ⟨tier1 s hs, ?_, ?_⟩
    · unfold matchCategoryId
      obtain ⟨found, hfound⟩ := Option.isSome_iff_exists.mp (tier1 s hs)
      rw [hfound]
      rfl
    · unfold matchWarnsFuzzy
      obtain ⟨found, hfound⟩ := Option.isSome_iff_exists.mp (tier1 s hs)
      simp [hfound]
  · intro s rest heq hne
    have hs : s ∈ validateCategorySuggestions sugg categories := by
      rw [heq]; exact List.mem_cons_self s rest
    obtain ⟨found, hfound⟩ := Option.isSome_iff_exists.mp (tier1 s hs)
    have hbne : (s.name != "") = true := by
      simpa using hne
    rw [heq]
    simp only [preselectionId, hbne, if_true]
    unfold matchCategoryId
    rw [hfound]
    rfl

/-- C9 witness: a concrete validated suggestion list whose first name is
non-empty has a non-null preselection id. -/
theorem validatedSuggestions_resolveTier1_witness :
    ((([⟨1, "Groceries", none, false, false⟩] : List LMCategory)).map (fun c => c.name)).Nodup ∧
    (preselectionId
        (validateCategorySuggestions [⟨"Groceries", none, none⟩]
          [⟨1, "Groceries", none, false, false⟩])
        [⟨1, "Groceries", none, false, false⟩]).isSome := by
  refine ⟨by decide, ?_⟩
  exact (validatedSuggestions_resolveTier1 [⟨1, "Groceries", none, false, false⟩]
      [⟨"Groceries", none, none⟩] (by decide)).2 ⟨"Groceries", none, none⟩ [] (by decide) (by decide)

/-- C9 counterexample: a single empty-named (unique-named) category makes
the validator retain the empty-named suggestion, yet the preselection
derived from the first validated element is null, because the source
guards on the truthiness of `suggestions[0].name` before resolving it. -/
theorem preselection_emptyName_null :
    ((([⟨7, "", none, false, false⟩] : List LMCategory)).map (fun c => c.name)).Nodup ∧
    validateCategorySuggestions [⟨"", none, none⟩] [⟨7, "", none, false, false⟩]
      = [⟨"", none, none⟩] ∧
    preselectionId (validateCategorySuggestions [⟨"", none, none⟩] [⟨7, "", none, false, false⟩])
      [⟨7, "", none, false, false⟩] = none := by
  exact ⟨by decide, by decide, by decide⟩

theorem strInfix_extendRight {x : List Char} {s : String} (h : x <:+: s.data) (b : String) :
    x <:+: (s ++ b).data := by
  rw [String.data_append]
  exact h.trans (List.prefix_append s.data b.data).isInfix

theorem strInfix_extendLeft {x : List Char} {s : String} (h : x <:+: s.data) (a : String) :
    x <:+: (a ++ s).data := by
  rw [String.data_append]
  exact h.trans (List.suffix_append a.data s.data).isInfix

theorem mem_joinWith_infix (sep : String) (l : List String) (x : String) (hx : x ∈ l) :
    x.data <:+: (joinWith sep l).data := by
  induction l with
  | nil => cases hx
  | cons y ys ih =>
    cases hx with
    | head =>
      cases ys with
      | nil => exact List.infix_rfl
      | cons z zs =>
        show x.data <:+: (x ++ sep ++ joinWith sep (z :: zs)).data
        exact strInfix_extendRight (strInfix_extendRight List.infix_rfl sep) _
    | tail _ hmem =>
      cases ys with
      | nil => cases hmem
      | cons z zs =>
        show x.data <:+: (y ++ sep ++ joinWith sep (z :: zs)).data
        rw [String.data_append, String.data_append]
        exact (ih hmem).trans
          (List.suffix_append (y.data ++ sep.data) (joinWith sep (z :: zs)).data).isInfix

theorem name_infix_categoryInfo (c : LMCategory) : c.name.data <:+: (categoryInfo c).data := by
  have hbase : c.name.data <:+:
      ("\"" ++ c.name ++ "\" (ID: " ++ toString c.id ++ ")").data := by
    have h0 : c.name.data <:+: ("\"" ++ c.name).data :=
      strInfix_extendLeft List.infix_rfl "\""
    exact strInfix_extendRight (strInfix_extendRight (strInfix_extendRight h0 _) _) _
  unfold categoryInfo
  rcases c.description with _ | d
  · exact hbase
  · cases ht : (jsTrim d != "") <;> simp only [ht, if_true, if_false, Bool.false_eq_true]
    · exact hbase
    · exact strInfix_extendRight (strInfix_extendRight hbase _) _

theorem categoryInfo_data_ne_nil (c : LMCategory) : (categoryInfo c).data ≠ [] := by
  have hb : ∀ t : String, (("\"" ++ t).data) ≠ [] := by
    intro t
    rw [String.data_append]
    exact List.append_ne_nil_of_left_ne_nil (by decide) t.data
  unfold categoryInfo
  rcases c.description with _ | d
  · rw [String.data_append, String.data_append, String.data_append]
    simp
  · cases ht : (jsTrim d != "") <;> simp only [ht, if_true, if_false, Bool.false_eq_true]
    · rw [String.data_append, String.data_append, String.data_append]
      simp
    · rw [String.data_append, String.data_append, String.data_append,
        String.data_append, String.data_append]
      simp

theorem joinWith_data_ne_nil (sep : String) (x : String) (xs : List String)
    (hx : x.data ≠ []) : (joinWith sep (x :: xs)).data ≠ [] := by
  cases xs with
  | nil => exact hx
  | cons z zs =>
    show ((x ++ sep ++ joinWith sep (z :: zs)).data) ≠ []
    rw [String.data_append, String.data_append]
    exact List.append_ne_nil_of_left_ne_nil (List.append_ne_nil_of_left_ne_nil hx _) _

theorem filter_systemPromptLines (catBlock : String) (h : (catBlock != "") = true) :
    (systemPromptLines catBlock).filter (fun s => s != "")
      = promptHeadLines ++ catBlock :: [promptFooterLine] := by
  simp [systemPromptLines, promptHeadLines, promptFooterLine, List.filter_cons, h]

/-- C3 counterexample: with a single category named "a", the output does
not contain the category name verbatim exactly once — the letter also
occurs throughout the fixed instruction text. -/
theorem buildSystemPrompt_name_not_exactly_once :
    countOccurrences "a".data (buildSystemPrompt [⟨1, "a", none, false, false⟩]).data ≠ 1 := by
  decide

/-- C3 (amended): for every non-empty category list, `buildSystemPrompt`
is deterministic text consisting of the fixed header lines, one
enumeration line per input category in input order, and the fixed footer,
joined by newlines; every input category's name occurs verbatim in the
output (at least once — not exactly once, since a name can also occur
elsewhere in the text); and the orchestrator feeds it only the active
subset produced by the `getCategories` filter, which contains no archived
and no group categories. -/
theorem buildSystemPrompt_enumeration (cats : List LMCategory) (hne : cats ≠ []) :
    buildSystemPrompt cats
      = joinWith "\n" (promptHeadLines
          ++ joinWith "\n" (cats.map categoryInfo) :: [promptFooterLine])
    ∧ (∀ c ∈ cats, c.name.data <:+: (buildSystemPrompt cats).data)
    ∧ (∀ raw : List LMCategory, ∀ c ∈ getCategoriesFilter raw,
        c.archived = false ∧ c.is_group = false) := by
  obtain ⟨c0, rest, rfl⟩ := List.exists_cons_of_ne_nil hne
  have hblock : (joinWith "\n" ((c0 :: rest).map categoryInfo)).data ≠ [] := by
    rw [List.map_cons]
    exact joinWith_data_ne_nil _ _ _ (categoryInfo_data_ne_nil c0)
  have hbne : ((joinWith "\n" ((c0 :: rest).map categoryInfo)) != "") = true := by
    simp only [bne_iff_ne, ne_eq]
    intro hcontra
    exact hblock (by rw [hcontra])
  have heq : buildSystemPrompt (c0 :: rest)
      = joinWith "\n" (promptHeadLines
          ++ joinWith "\n" ((c0 :: rest).map categoryInfo) :: [promptFooterLine]) := by
    simp only [buildSystemPrompt]
    rw [filter_systemPromptLines _ hbne]
  refine ⟨heq, ?_, ?_⟩
  · intro c hc
    have h1 : c.name.data <:+: (categoryInfo c).data := name_infix_categoryInfo c
    have h2 : (categoryInfo c).data <:+: (joinWith "\n" ((c0 :: rest).map categoryInfo)).data :=
      mem_joinWith_infix _ _ _ (List.mem_map_of_mem categoryInfo hc)
    have h3 : (joinWith "\n" ((c0 :: rest).map categoryInfo)).data
        <:+: (buildSystemPrompt (c0 :: rest)).data := by
      rw [heq]
      exact mem_joinWith_infix _ _ _ (by simp)
    exact (h1.trans h2).trans h3
  · intro raw c hc
    have hp := (List.mem_filter.mp hc).2
    simp only [Bool.and_eq_true, Bool.not_eq_true'] at hp
    exact ⟨hp.2, hp.1⟩

/-- C3 witness: the amended enumeration equation at a concrete one-element
category list. -/
theorem buildSystemPrompt_enumeration_witness :
    (([⟨1, "Groceries", none, false, false⟩] : List LMCategory) ≠ []) ∧
    buildSystemPrompt [⟨1, "Groceries", none, false, false⟩]
      = joinWith "\n" (promptHeadLines
          ++ joinWith "\n"
              (([⟨1, "Groceries", none, false, false⟩] : List LMCategory).map categoryInfo)
          :: [promptFooterLine]) :=
  ⟨by decide, (buildSystemPrompt_enumeration [⟨1, "Groceries", none, false, false⟩] (by decide)).1⟩

theorem take3_eq_firstThree {α : Type} (l : List α) : l.take 3 = firstThree l := by
  match l with
  | [] => rfl
  | [a] => rfl
  | [a, b] => rfl
  | a :: b :: c :: rest => simp [firstThree, List.take]

theorem filter_eq_dropEmptyNames (l : List CategorySuggestion) :
    l.filter (fun s => decide (s.name.length > 0)) = dropEmptyNames l := by
  induction l with
  | nil => rfl
  | cons s rest ih =>
    by_cases h : s.name = ""
    · have hz : ¬ s.name.length > 0 := by
        simp [h]
      simp [dropEmptyNames, h, List.filter_cons, ih, hz]
    · have hp : s.name.length > 0 := by
        rcases hs : s.name with ⟨d⟩
        rw [hs] at h
        cases d with
        | nil => exact absurd rfl h
        | cons a t => simp [String.length]
      simp [dropEmptyNames, h, List.filter_cons, ih, hp]

/-- C8: for every successfully parsed model response, the post-processing
reads the `suggestions` field (an absent or non-array field yields the
empty list), coerces each entry's name to a trimmed string and drops
entries with empty trimmed name, coerces justification to a trimmed
string or absent, coerces confidence to the number itself when numeric
and to null otherwise, and truncates to at most the first 3 entries: the
source pipeline equals the spec-side formulation, outputs have length at
most 3 with non-empty names, and the confidence coercion keeps exactly
the numeric field values. -/
theorem postProcess_refines_spec :
    (∀ parsed : Json, postProcessSuggestions parsed = postProcessSpec parsed) ∧
    (∀ parsed : Json, (postProcessSuggestions parsed).length ≤ 3) ∧
    (∀ parsed : Json, ∀ s ∈ postProcessSuggestions parsed, s.name ≠ "") ∧
    (∀ entry : Json, ∀ q : ℚ,
        ((coerceSuggestion entry).confidence = some q ↔
          entry.getField "confidence" = some (Json.num q))) := by
  refine ⟨?_, ?_, ?_, ?_⟩
  · intro parsed
    unfold postProcessSuggestions postProcessSpec
    cases h : parsed.getField "suggestions" with
    | none => rfl
    | some v =>
      cases v <;> try rfl
      rename_i elems
      simp only [take3_eq_firstThree, filter_eq_dropEmptyNames]
  · intro parsed
    unfold postProcessSuggestions
    cases h : parsed.getField "suggestions" with
    | none => simp
    | some v =>
      cases v <;> simp [List.length_take_le]
  · intro parsed s hs
    unfold postProcessSuggestions at hs
    have hmem : s ∈ (match parsed.getField "suggestions" with
        | some (Json.arr elems) => elems
        | _ => []).map coerceSuggestion
        ∧ decide (s.name.length > 0) = true := by
      have := List.mem_of_mem_take hs
      exact ⟨(List.mem_filter.mp this).1, (List.mem_filter.mp this).2⟩
    have : s.name.length > 0 := by simpa using hmem.2
    intro hcontra
    rw [hcontra] at this
    simp at this
  · intro entry q
    unfold coerceSuggestion
    cases h : entry.getField "confidence" with
    | none => simp [h]
    | some v => cases v <;> simp [h]

/-- C1 (code bug): on the model output text "\x7bnot json\x7d" there is
no fenced block, so the candidate is the full trimmed text; the direct
`JSON.parse` fails, the brace scan finds a first brace at 0 and a last
brace at 9, and the retry parses the same unparseable substring —
**outside any try/catch** — so the pipeline raises a `SyntaxError`
instead of returning the empty suggestion list claimed by the spec.  The
statement holds for every parse oracle that (like `JSON.parse`) rejects
this text. -/
theorem parseFailure_braceRetry_throws (parse : String → Option Json)
    (hfail : parse "\x7bnot json\x7d" = none) :
    chooseCategoryOptionsParse parse "\x7bnot json\x7d" = Except.error () := by
  have h1 : jsTrim "\x7bnot json\x7d" = "\x7bnot json\x7d" := by decide
  have h2 : fenceInner "\x7bnot json\x7d" = none := by decide
  have h3 : firstOccIdx ['\x7b'] ("\x7bnot json\x7d").data = some 0 := by decide
  have h4 : lastCharIdx '\x7d' ("\x7bnot json\x7d").data = some 9 := by decide
  have h5 : String.mk ((("\x7bnot json\x7d").data.take 10).drop 0) = "\x7bnot json\x7d" := by
    decide
  simp only [chooseCategoryOptionsParse, h1, h2, h3, h4, h5, hfail]
  rw [if_neg (by decide), if_pos (by norm_num)]

/-- C1 witness: the failing input evaluated with a parse oracle that
rejects the brace-bounded candidate, as `JSON.parse` does. -/
theorem parseFailure_braceRetry_throws_witness :
    ((fun _ : String => (none : Option Json)) "\x7bnot json\x7d" = none) ∧
    chooseCategoryOptionsParse (fun _ => (none : Option Json)) "\x7bnot json\x7d"
      = Except.error () :=
  ⟨rfl, parseFailure_braceRetry_throws (fun _ => none) rfl⟩

/-- C2 (code bug): a transaction whose gate resolves `null` (skip) is
counted twice — the skip branch increments `done` and updates the bar
before its `continue`, and the surrounding `finally` increments and
updates again — so after processing one skipped transaction the counter
is 2 (not 1) and two progress updates are emitted, the second reporting
2 of 1. -/
theorem run_skip_doubleCounts :
    (runLoop [⟨1, "2024-01-01", none, 0, none⟩]
        [⟨false, false, GateDecision.skipOrEmptySave, true⟩]).done = 2 ∧
    (runLoop [⟨1, "2024-01-01", none, 0, none⟩]
        [⟨false, false, GateDecision.skipOrEmptySave, true⟩]).bar = [(1, 1), (2, 1)] := by
  constructor <;> rfl

theorem processTx_noCancel (total : Nat) (t : LMTransaction) (ev : TxEvents)
    (st : RunState) (hc : st.cancelled = false) (hev : NoCancelEv ev) :
    (processTx total t ev st).2 = true ∧
    (processTx total t ev st).1.cancelled = false ∧
    (processTx total t ev st).1.presented = st.presented ++ [t.id] ∧
    (processTx total t ev st).1.committed = st.committed ++ commitOf t ev := by
  obtain ⟨h1, h2, h3⟩ := hev
  unfold processTx
  cases hd : ev.decision with
  | cancelModal => exact absurd hd h3
  | skipOrEmptySave => simp [h1, h2, hc, hd, barStep, commitOf]
  | save i =>
    by_cases hz : i = 0 <;>
      cases hok : ev.commitOk <;>
        simp [h1, h2, hc, hd, hz, hok, barStep, commitOf]

theorem processTx_cancelAtGate (total : Nat) (t : LMTransaction) (ev : TxEvents)
    (st : RunState) (hc : st.cancelled = false)
    (h1 : ev.cancelBefore = false) (h2 : ev.cancelDuringProvider = false)
    (h3 : ev.decision = GateDecision.cancelModal) :
    (processTx total t ev st).2 = false ∧
    (processTx total t ev st).1.cancelled = true ∧
    (processTx total t ev st).1.presented = st.presented ++ [t.id] ∧
    (processTx total t ev st).1.committed = st.committed := by
  unfold processTx
  simp [h1, h2, h3, hc, barStep]

theorem runLoopAux_cancelDuringGate (total : Nat) :
    ∀ (n : Nat) (txs : List LMTransaction) (evs : List TxEvents) (st : RunState)
      (evn : TxEvents),
      st.cancelled = false →
      n < txs.length →
      evs[n]? = some evn →
      (∀ ev ∈ evs.take n, NoCancelEv ev) →
      evn.cancelBefore = false → evn.cancelDuringProvider = false →
      evn.decision = GateDecision.cancelModal →
      (runLoopAux total txs evs st).presented
          = st.presented ++ ((txs.take (n + 1)).map (fun t => t.id)) ∧
      (runLoopAux total txs evs st).committed = st.committed ++ expectedCommits txs evs n ∧
      (runLoopAux total txs evs st).cancelled = true := by
  intro n
  induction n with
  | zero =>
    intro txs evs st evn hc hn hget hpre hcb hcd hdec
    cases txs with
    | nil => simp at hn
    | cons t ts =>
      cases evs with
      | nil => simp at hget
      | cons e es =>
        have he : e = evn := by simpa using hget
        subst he
        obtain ⟨hcont, hcanc, hpres, hcomm⟩ :=
          processTx_cancelAtGate total t e st hc hcb hcd hdec
        simp only [runLoopAux, hcont, if_false, Bool.false_eq_true]
        refine ⟨?_, ?_, hcanc⟩
        · simpa using hpres
        · simpa [expectedCommits] using hcomm
  | succ m ih =>
    intro txs evs st evn hc hn hget hpre hcb hcd hdec
    cases txs with
    | nil => simp at hn
    | cons t ts =>
      cases evs with
      | nil => simp at hget
      | cons e es =>
        have hev : NoCancelEv e := by
          apply hpre
          simp [List.take_succ_cons]
        obtain ⟨hcont, hc2, hpres, hcomm⟩ := processTx_noCancel total t e st hc hev
        have hn' : m < ts.length := by simpa using hn
        have hget' : es[m]? = some evn := by simpa using hget
        have hpre' : ∀ ev ∈ es.take m, NoCancelEv ev := by
          intro ev hmem
          apply hpre
          simp [List.take_succ_cons, hmem]
        obtain ⟨P, C, X⟩ :=
          ih ts es (processTx total t e st).1 evn hc2 hn' hget' hpre' hcb hcd hdec
        simp only [runLoopAux, hcont, if_true]
        refine ⟨?_, ?_, X⟩
        · rw [P, hpres]
          simp [List.take_succ_cons]
        · rw [C, hcomm]
          simp [expectedCommits]

/-- C7: once the shared cancellation flag is set by the approval gate of
transaction n (cooperative cancel while awaiting that decision, no
earlier cancellation), the loop presents exactly transactions 0..n,
performs exactly the commits of transactions 0..n−1 (which remain
intact), ends cancelled, and never prompts, presents, or commits any
later transaction.  The flag checkpoints — top of the per-transaction
loop, before and after the provider call, and before the commit call —
are embedded in `processTx` at the positions they occupy in the source. -/
theorem runLoop_cancelDuringGate (txs : List LMTransaction) (evs : List TxEvents)
    (n : Nat) (evn : TxEvents)
    (hn : n < txs.length)
    (hget : evs[n]? = some evn)
    (hpre : ∀ ev ∈ evs.take n, NoCancelEv ev)
    (hcb : evn.cancelBefore = false) (hcd : evn.cancelDuringProvider = false)
    (hdec : evn.decision = GateDecision.cancelModal) :
    (runLoop txs evs).presented = (txs.take (n + 1)).map (fun t => t.id) ∧
    (runLoop txs evs).committed = expectedCommits txs evs n ∧
    (runLoop txs evs).cancelled = true := by
  have := runLoopAux_cancelDuringGate txs.length n txs evs
      { cancelled := false, done := 0, bar := [], presented := [], committed := [] }
      evn rfl hn hget hpre hcb hcd hdec
  simpa [runLoop] using this

/-- Transactions used by the cancellation witness. -/
def witnessTxs : List LMTransaction :=
  [⟨101, "2024-01-01", none, 0, none⟩, ⟨102, "2024-01-02", none, 0, none⟩,
   ⟨103, "2024-01-03", none, 0, none⟩]

/-- Events used by the cancellation witness: transaction 101 saved and
committed, cancellation at the gate of transaction 102. -/
def witnessEvs : List TxEvents :=
  [⟨false, false, GateDecision.save 5, true⟩,
   ⟨false, false, GateDecision.cancelModal, true⟩,
   ⟨false, false, GateDecision.skipOrEmptySave, true⟩]

/-- C7 witness: with three transactions and cancellation signalled at the
approval gate of the second, only the first two are presented, only the
first transaction's commit is performed (and remains intact), and the
run ends cancelled; the third transaction is never presented nor
committed. -/
theorem runLoop_cancelDuringGate_witness :
    (1 < witnessTxs.length ∧
      witnessEvs[1]? = some ⟨false, false, GateDecision.cancelModal, true⟩ ∧
      ∀ ev ∈ witnessEvs.take 1, NoCancelEv ev) ∧
    ((runLoop witnessTxs witnessEvs).presented = [101, 102] ∧
     (runLoop witnessTxs witnessEvs).committed = [(101, 5)] ∧
     (runLoop witnessTxs witnessEvs).cancelled = true) := by
  refine ⟨⟨by decide, by decide, by decide⟩, ?_⟩
  have := runLoop_cancelDuringGate witnessTxs witnessEvs 1
      ⟨false, false, GateDecision.cancelModal, true⟩ (by decide) (by decide)
      (by decide) rfl rfl rfl
  simpa [witnessTxs, witnessEvs, expectedCommits, commitOf] using this
